import Mathlib

/-!
Verification of the markup-correlation core of the `pdf-annotations` service
(`src/main.py`).  Coordinates and colors are modelled over `ℚ`; the Python
floats carry exact decimal constants at every point the claims touch, so the
rational embedding is faithful to the arithmetic the source performs.
-/

namespace PdfAnnotations

/-- Axis-aligned rectangle `(x0, y0, x1, y1)`, the shape `fitz.Rect` exposes. -/
structure Rect where
  x0 : ℚ
  y0 : ℚ
  x1 : ℚ
  y1 : ℚ
deriving DecidableEq, Repr

/-- Width `x1 - x0` of a rectangle. -/
def Rect.width (r : Rect) : ℚ := r.x1 - r.x0

/-- Height `y1 - y0` of a rectangle. -/
def Rect.height (r : Rect) : ℚ := r.y1 - r.y0

/-- Area `(x1 - x0) * (y1 - y0)`, exactly as the source multiplies it. -/
def Rect.area (r : Rect) : ℚ := (r.x1 - r.x0) * (r.y1 - r.y0)

/-- Two axis-aligned rectangles share no area: they are separated along
an axis. -/
def Rect.disjoint (r1 r2 : Rect) : Prop :=
  r1.x1 ≤ r2.x0 ∨ r2.x1 ≤ r1.x0 ∨ r1.y1 ≤ r2.y0 ∨ r2.y1 ≤ r1.y0

/-- `main.py` `is_green`: absent color is not green; otherwise the green
channel must clear `0.6` and exceed each other channel by `0.10`. -/
def is_green : Option (ℚ × ℚ × ℚ) → Bool
  | none => false
  | some (r, g, b) => decide (g ≥ 6/10) && decide (g ≥ r + 1/10) && decide (g ≥ b + 1/10)

/-- The intersection rectangle `_rects_overlap` builds:
`fitz.Rect(max(r1.x0, r2.x0), max(r1.y0, r2.y0), min(r1.x1, r2.x1), min(r1.y1, r2.y1))`. -/
def interRect (r1 r2 : Rect) : Rect :=
  ⟨max r1.x0 r2.x0, max r1.y0 r2.y0, min r1.x1 r2.x1, min r1.y1 r2.y1⟩

/-- `main.py` `_rects_overlap`: intersection rectangle, early exit on
non-positive width/height, then IoU against `max(a1 + a2 - inter, 1e-6)`
compared with the threshold. -/
def rects_overlap (r1 r2 : Rect) (min_iou : ℚ) : Bool :=
  let inter : Rect := interRect r1 r2
  if inter.x1 ≤ inter.x0 ∨ inter.y1 ≤ inter.y0 then false
  else
    let inter_area := (inter.x1 - inter.x0) * (inter.y1 - inter.y0)
    let a1 := (r1.x1 - r1.x0) * (r1.y1 - r1.y0)
    let a2 := (r2.x1 - r2.x0) * (r2.y1 - r2.y0)
    let denom := max (a1 + a2 - inter_area) (1/1000000)
    decide (inter_area / denom ≥ min_iou)

/-- Entries at even positions of a list: Python `q[0::2]`. -/
def evenEntries : List ℚ → List ℚ
  | [] => []
  | [x] => [x]
  | x :: _ :: rest => x :: evenEntries rest

/-- Entries at odd positions of a list: Python `q[1::2]`. -/
def oddEntries : List ℚ → List ℚ
  | [] => []
  | _ :: rest => evenEntries rest

/-- `main.py` `rect_from_quad_list`: bounding rectangle
`(min xs, min ys, max xs, max ys)` of the coordinates at even/odd
positions.  Python `min`/`max` raise on an empty sequence, hence `Option`. -/
def rect_from_quad_list (q : List ℚ) : Option Rect :=
  match (evenEntries q).min?, (oddEntries q).min?,
        (evenEntries q).max?, (oddEntries q).max? with
  | some mx, some my, some Mx, some My => some ⟨mx, my, Mx, My⟩
  | _, _, _, _ => none

/-- Bounding rectangle of a four-point quad (`fitz.Quad(...).rect`). -/
def quadRect (p1 p2 p3 p4 : ℚ × ℚ) : Rect :=
  ⟨min (min (min p1.1 p2.1) p3.1) p4.1, min (min (min p1.2 p2.2) p3.2) p4.2,
   max (max (max p1.1 p2.1) p3.1) p4.1, max (max (max p1.2 p2.2) p3.2) p4.2⟩

/-- Flat-number branch of `_collect_text_markup_annots`: consume eight
numbers at a time (`for i in range(0, len(v), 8)` with the `i + 7 < len(v)`
guard), each group yielding `Rect(min xs, min ys, max xs, max ys)`. -/
def flatQuads : List ℚ → List Rect
  | x1 :: y1 :: x2 :: y2 :: x3 :: y3 :: x4 :: y4 :: rest =>
    ⟨min (min (min x1 x2) x3) x4, min (min (min y1 y2) y3) y4,
     max (max (max x1 x2) x3) x4, max (max (max y1 y2) y3) y4⟩ :: flatQuads rest
  | _ => []

/-- Point-object branch of `_collect_text_markup_annots`: consume four
points at a time (`for i in range(0, len(v), 4)` with the `i + 3 < len(v)`
guard), each group yielding `fitz.Quad([...]).rect`. -/
def pointQuads : List (ℚ × ℚ) → List Rect
  | p1 :: p2 :: p3 :: p4 :: rest => quadRect p1 p2 p3 p4 :: pointQuads rest
  | _ => []

/-- The `vertices` value of an annotation, in one of the shapes
`_collect_text_markup_annots` probes for: absent/`None`, quad objects
exposing `.rect`, point objects exposing `.x`/`.y`, or a flat number list. -/
inductive Geometry where
  | absent : Geometry
  | quads (qs : List Rect) : Geometry
  | points (ps : List (ℚ × ℚ)) : Geometry
  | flat (ns : List ℚ) : Geometry
deriving DecidableEq, Repr

/-- Rectangles derived from the geometry value by
`_collect_text_markup_annots` (an absent or empty value contributes no
rectangle in the source, matching the empty-list cases here). -/
def normalizeGeometry : Geometry → List Rect
  | .absent => []
  | .quads qs => qs
  | .points ps => pointQuads ps
  | .flat ns => flatQuads ns

/-- Python `str.lower()`: lowercase each character. -/
def strToLower (s : String) : String := ⟨s.data.map Char.toLower⟩

/-- `needle in hay` on strings (Python substring containment). -/
def strContainsSub (hay needle : String) : Bool :=
  (List.range (hay.toList.length + 1)).any fun i =>
    needle.toList.isPrefixOf (hay.toList.drop i)

/-- The markup-kind keywords of `_collect_text_markup_annots`. -/
def markupKinds : List String := ["highlight", "underline", "strike", "squiggly"]

/-- `any(k in name for k in ["highlight", "underline", "strike", "squiggly"])`. -/
def isTextMarkupName (name : String) : Bool :=
  markupKinds.any fun k => strContainsSub name k

/-- A page annotation as the Document Provider exposes it: type name,
stroke color, geometry value, coarse fallback bounding box `a.rect`. -/
structure Annot where
  typeString : String
  stroke : Option (ℚ × ℚ × ℚ)
  vertices : Geometry
  rect : Rect
deriving DecidableEq, Repr

/-- One `{type, rect, color}` entry emitted by
`_collect_text_markup_annots`. -/
structure AnnotOut where
  type : String
  rect : Rect
  color : Option (ℚ × ℚ × ℚ)
deriving DecidableEq, Repr

/-- Per-annotation body of `_collect_text_markup_annots`: filter to markup
type names, normalize geometry, fall back to `a.rect` when no rectangle was
derived, emit one entry per rectangle. -/
def collectAnnot (a : Annot) : List AnnotOut :=
  let name := strToLower a.typeString
  if isTextMarkupName name then
    let rects := normalizeGeometry a.vertices
    let rects := if rects = [] then [a.rect] else rects
    rects.map fun r => ⟨name, r, a.stroke⟩
  else []

/-- `_collect_text_markup_annots` over a page's annotation list. -/
def collect_text_markup_annots (annots : List Annot) : List AnnotOut :=
  annots.flatMap collectAnnot

/-- One sample `{bbox, color_rgb}` recorded for a span's annotation marks. -/
structure Sample where
  bbox : Rect
  color_rgb : Option (ℚ × ℚ × ℚ)
deriving DecidableEq, Repr

/-- The sample `_spans_compacts` records for a matching annotation entry. -/
def toSample (a : AnnotOut) : Sample := ⟨a.rect, a.color⟩

/-- Annotation-matching loop of `_spans_compacts`: walk candidates in
enumeration order; on overlap (threshold `0.05`) add the kind to the set and
append a sample; break once two samples are collected. -/
def annotMatchLoop (r : Rect) :
    List AnnotOut → Finset String → List Sample → Finset String × List Sample
  | [], types, samples => (types, samples)
  | a :: rest, types, samples =>
    if rects_overlap r a.rect (5/100) then
      let types := insert a.type types
      let samples := samples ++ [toSample a]
      if 2 ≤ samples.length then (types, samples)
      else annotMatchLoop r rest types samples
    else annotMatchLoop r rest types samples

/-- A span's `annot_mark` value: `has`, sorted kind list, samples. -/
structure AnnotMark where
  has : Bool
  types : List String
  samples : List Sample
deriving DecidableEq, Repr

/-- `s["annot_mark"] = {"has": bool(types), "types": sorted(types),
"samples": samples if types else []}`. -/
def annotMark (r : Rect) (cands : List AnnotOut) : AnnotMark :=
  let p := annotMatchLoop r cands ∅ []
  ⟨decide (p.1 ≠ ∅), p.1.sort (· ≤ ·), if p.1 = ∅ then [] else p.2⟩

/-- One `{rect, fill}` entry of `_collect_visual_highlights` output. -/
structure VisualOut where
  rect : Rect
  fill : Option (ℚ × ℚ × ℚ)
deriving DecidableEq, Repr

/-- One sample `{bbox, fill_rgb}` recorded for a span's visual marks. -/
structure VisualSample where
  bbox : Rect
  fill_rgb : Option (ℚ × ℚ × ℚ)
deriving DecidableEq, Repr

/-- Visual-matching loop of `_spans_compacts`: append a sample per
overlapping fill, break once two samples are collected. -/
def visualMatchLoop (r : Rect) : List VisualOut → List VisualSample → List VisualSample
  | [], vs => vs
  | v :: rest, vs =>
    if rects_overlap r v.rect (5/100) then
      let vs := vs ++ [⟨v.rect, v.fill⟩]
      if 2 ≤ vs.length then vs else visualMatchLoop r rest vs
    else visualMatchLoop r rest vs

/-- A span's `visual_mark` value. -/
structure VisualMark where
  has : Bool
  samples : List VisualSample
deriving DecidableEq, Repr

/-- `s["visual_mark"] = {"has": bool(vs), "samples": vs}`. -/
def visualMark (r : Rect) (cands : List VisualOut) : VisualMark :=
  let vs := visualMatchLoop r cands []
  ⟨!vs.isEmpty, vs⟩

/-- One structured span as `page.get_text("dict")` reports it. -/
structure RawSpan where
  text : String
  font : String
  flags : Int
  size : ℚ
  bbox : Rect
  color : Option Nat
deriving Repr

/-- One line of a text block. -/
structure RawLine where
  spans : List RawSpan
deriving Repr

/-- One block of the page dictionary; `type` 0 is text, 1 is an image. -/
structure RawBlock where
  type : Int
  lines : List RawLine
deriving Repr

/-- `fitz.sRGB_to_rgb`: decode an sRGB integer into its 0–255 channels. -/
def sRGB_to_rgb (c : Nat) : ℕ × ℕ × ℕ :=
  ((c >>> 16) &&& 255, (c >>> 8) &&& 255, c &&& 255)

/-- One span record built by the first loop of `_spans_compacts`. -/
structure SpanOut where
  page : Int
  block : Nat
  line : Nat
  span : Nat
  text : String
  bbox : Rect
  font : String
  size : ℚ
  is_bold : Bool
  color_rgb : Option (ℕ × ℕ × ℕ)
deriving Repr

/-- The record `_spans_compacts` appends for one kept span. -/
def spanOut (pageNum : Int) (bi li si : Nat) (s : RawSpan) : SpanOut :=
  { page := pageNum
    block := bi, line := li, span := si
    text := s.text
    bbox := s.bbox
    font := s.font
    size := s.size
    is_bold := strContainsSub (strToLower s.font) "bold" || s.flags ≠ 0
    color_rgb := s.color.map sRGB_to_rgb }

/-- First loop of `_spans_compacts`: keep text blocks (`type == 0`), skip a
span exactly when its text is falsy (the empty string); no trimming. -/
def extractSpans (pageNum : Int) (blocks : List RawBlock) : List SpanOut :=
  blocks.enum.flatMap fun bp =>
    if bp.2.type ≠ 0 then [] else
      bp.2.lines.enum.flatMap fun lp =>
        lp.2.spans.enum.flatMap fun sp =>
          if sp.2.text = "" then [] else [spanOut pageNum bp.1 lp.1 sp.1 sp.2]

/-- A compact span together with its two mark attachments. -/
structure CompactSpan where
  info : SpanOut
  annot_mark : AnnotMark
  visual_mark : VisualMark
deriving Repr

/-- `_spans_compacts` for one page, with the provider's annotation list and
the visual-fill collector output as inputs. -/
def spans_compacts (pageNum : Int) (blocks : List RawBlock)
    (annots : List Annot) (visuals : List VisualOut) : List CompactSpan :=
  let spans := extractSpans pageNum blocks
  let annot_rects := collect_text_markup_annots annots
  spans.map fun s => ⟨s, annotMark s.bbox annot_rects, visualMark s.bbox visuals⟩

/-- Python `str.strip()`: drop leading and trailing whitespace. -/
def pyStrip (s : String) : String :=
  ⟨(((s.data.dropWhile Char.isWhitespace).reverse).dropWhile Char.isWhitespace).reverse⟩

/-- Python `str.split(sep)` for a one-character separator, on the
character list. -/
def splitChar (c : Char) : List Char → List (List Char)
  | [] => [[]]
  | x :: xs =>
    match splitChar c xs with
    | [] => [[]]
    | h :: t => if x = c then [] :: h :: t else (x :: h) :: t

/-- Decimal value of a digit list. -/
def digitsToNat (ds : List Char) : Nat :=
  ds.foldl (fun acc d => 10 * acc + (d.toNat - '0'.toNat)) 0

/-- Python `int(str)`: strip surrounding whitespace, optional sign, then a
nonempty run of decimal digits; anything else raises (`none` here). -/
def pyInt (s : String) : Option Int :=
  match (pyStrip s).data with
  | [] => none
  | '-' :: ds =>
    if ds ≠ [] ∧ ds.all Char.isDigit then some (-(digitsToNat ds : Int)) else none
  | '+' :: ds =>
    if ds ≠ [] ∧ ds.all Char.isDigit then some (digitsToNat ds : Int) else none
  | ds =>
    if ds.all Char.isDigit then some (digitsToNat ds : Int) else none

/-- Python `range(a, b + 1)`: the integers from `a` to `b` inclusive. -/
def intRange (a b : Int) : List Int :=
  (List.range (b + 1 - a).toNat).map fun i => a + i

/-- Pages one token of the `pages` expression contributes in `parse_pdf`:
an `a-b` token adds every in-range page of the span, a plain token adds its
page when in range, and a token whose `int(...)` parse fails adds nothing. -/
def tokenPages (docLen : Nat) (part0 : String) : List Int :=
  let part := (pyStrip part0).data
  if part.contains '-' then
    match pyInt ⟨part.takeWhile (· ≠ '-')⟩,
          pyInt ⟨part.drop ((part.takeWhile (· ≠ '-')).length + 1)⟩ with
    | some av, some bv =>
      (intRange av bv).filter fun n => 1 ≤ n ∧ n ≤ (docLen : Int)
    | _, _ => []
  else
    match pyInt ⟨part⟩ with
    | some n => if 1 ≤ n ∧ n ≤ (docLen : Int) then [n] else []
    | none => []

/-- The `sel` set accumulated over the comma-split tokens. -/
def selOfTokens (docLen : Nat) (parts : List String) : Finset Int :=
  parts.foldl (fun sel part => sel ∪ (tokenPages docLen part).toFinset) ∅

/-- `sel` for the whole `pages` parameter (stripped; an empty expression
skips the parsing loop entirely). -/
def selectedSet (docLen : Nat) (pagesParam : String) : Finset Int :=
  if pyStrip pagesParam = "" then ∅
  else selOfTokens docLen ((splitChar ',' (pyStrip pagesParam).data).map fun l => ⟨l⟩)

/-- `all_nums = list(range(1, len(doc) + 1))`. -/
def all_nums (docLen : Nat) : List Int :=
  (List.range docLen).map fun (i : Nat) => (i : Int) + 1

/-- `page_numbers = sorted(sel) if sel else all_nums`. -/
def page_numbers (docLen : Nat) (pagesParam : String) : List Int :=
  let sel := selectedSet docLen pagesParam
  if sel = ∅ then all_nums docLen else sel.sort (· ≤ ·)

/-- `BYTES_BUDGET = 28 * 1024 * 1024`. -/
def BYTES_BUDGET : Nat := 28 * 1024 * 1024

/-- Page loop of `parse_pdf`: process pages in their given order, append
each produced page object, add its serialized byte length to the running
total, and break once the total exceeds the budget.  `size n` is the
serialized length of page `n`'s result. -/
def budgetPages (size : Int → Nat) (budget : Nat) : List Int → Nat → List Int
  | [], _ => []
  | p :: rest, acc =>
    p :: (if budget < acc + size p then [] else budgetPages size budget rest (acc + size p))

/-- The `meta` object of the `parse_pdf` response. -/
structure RespMeta where
  page_count : Nat
  returned_pages : Nat
deriving DecidableEq, Repr

/-- Page selection plus budget loop of `parse_pdf`, returning the `meta`
fields `page_count` and `returned_pages` and the returned page numbers. -/
def parseMeta (docLen : Nat) (pagesParam : String) (size : Int → Nat)
    (budget : Nat) : RespMeta × List Int :=
  let out := budgetPages size budget (page_numbers docLen pagesParam) 0
  (⟨docLen, out.length⟩, out)

/-! ## Theorems -/

/-- Unfolding of `rects_overlap` through `interRect` and `Rect.area`. -/
theorem rects_overlap_eq (r1 r2 : Rect) (t : ℚ) :
    rects_overlap r1 r2 t =
      if (interRect r1 r2).x1 ≤ (interRect r1 r2).x0 ∨ (interRect r1 r2).y1 ≤ (interRect r1 r2).y0
      then false
      else decide ((interRect r1 r2).area /
        max (r1.area + r2.area - (interRect r1 r2).area) (1/1000000) ≥ t) := rfl

/-- C1: the overlap matcher returns true iff the intersection rectangle has
positive width and positive height and
`inter_area / max(area1 + area2 - inter_area, 1e-6) ≥ t`; disjoint
rectangles never match, and a zero-area rectangle never matches any
rectangle on either side. -/
theorem overlap_matcher_spec (r1 r2 : Rect) (t : ℚ) :
    (rects_overlap r1 r2 t = true ↔
      (0 < (interRect r1 r2).width ∧ 0 < (interRect r1 r2).height ∧
        (interRect r1 r2).area / max (r1.area + r2.area - (interRect r1 r2).area) (1/1000000) ≥ t)) ∧
    (Rect.disjoint r1 r2 → rects_overlap r1 r2 t = false) ∧
    (r1.area = 0 → rects_overlap r1 r2 t = false ∧ rects_overlap r2 r1 t = false) := by
  have guard1 : ∀ s1 s2 : Rect, s1.x1 = s1.x0 → rects_overlap s1 s2 t = false := by
    intro s1 s2 h
    rw [rects_overlap_eq, if_pos]
    left
    calc (interRect s1 s2).x1 ≤ s1.x1 := min_le_left _ _
      _ = s1.x0 := h
      _ ≤ (interRect s1 s2).x0 := le_max_left _ _
  have guard1' : ∀ s1 s2 : Rect, s2.x1 = s2.x0 → rects_overlap s1 s2 t = false := by
    intro s1 s2 h
    rw [rects_overlap_eq, if_pos]
    left
    calc (interRect s1 s2).x1 ≤ s2.x1 := min_le_right _ _
      _ = s2.x0 := h
      _ ≤ (interRect s1 s2).x0 := le_max_right _ _
  have guard2 : ∀ s1 s2 : Rect, s1.y1 = s1.y0 → rects_overlap s1 s2 t = false := by
    intro s1 s2 h
    rw [rects_overlap_eq, if_pos]
    right
    calc (interRect s1 s2).y1 ≤ s1.y1 := min_le_left _ _
      _ = s1.y0 := h
      _ ≤ (interRect s1 s2).y0 := le_max_left _ _
  have guard2' : ∀ s1 s2 : Rect, s2.y1 = s2.y0 → rects_overlap s1 s2 t = false := by
    intro s1 s2 h
    rw [rects_overlap_eq, if_pos]
    right
    calc (interRect s1 s2).y1 ≤ s2.y1 := min_le_right _ _
      _ = s2.y0 := h
      _ ≤ (interRect s1 s2).y0 := le_max_right _ _
  refine ⟨?_, ?_, ?_⟩
  · rw [rects_overlap_eq]
    by_cases h : (interRect r1 r2).x1 ≤ (interRect r1 r2).x0 ∨
        (interRect r1 r2).y1 ≤ (interRect r1 r2).y0
    · rw [if_pos h]
      simp only [Bool.false_eq_true, false_iff]
      rintro ⟨h1, h2, -⟩
      rw [Rect.width, sub_pos] at h1
      rw [Rect.height, sub_pos] at h2
      rcases h with h | h
      · exact absurd h (not_le.mpr h1)
      · exact absurd h (not_le.mpr h2)
    · push_neg at h
      rw [if_neg (by push_neg; exact h)]
      simp only [decide_eq_true_iff, ge_iff_le]
      constructor
      · intro hi
        exact ⟨by rw [Rect.width, sub_pos]; exact h.1, by rw [Rect.height, sub_pos]; exact h.2, hi⟩
      · rintro ⟨-, -, hi⟩
        exact hi
  · rintro (h | h | h | h)
    · rw [rects_overlap_eq, if_pos]
      left
      calc (interRect r1 r2).x1 ≤ r1.x1 := min_le_left _ _
        _ ≤ r2.x0 := h
        _ ≤ (interRect r1 r2).x0 := le_max_right _ _
    · rw [rects_overlap_eq, if_pos]
      left
      calc (interRect r1 r2).x1 ≤ r2.x1 := min_le_right _ _
        _ ≤ r1.x0 := h
        _ ≤ (interRect r1 r2).x0 := le_max_left _ _
    · rw [rects_overlap_eq, if_pos]
      right
      calc (interRect r1 r2).y1 ≤ r1.y1 := min_le_left _ _
        _ ≤ r2.y0 := h
        _ ≤ (interRect r1 r2).y0 := le_max_right _ _
    · rw [rects_overlap_eq, if_pos]
      right
      calc (interRect r1 r2).y1 ≤ r2.y1 := min_le_right _ _
        _ ≤ r1.y0 := h
        _ ≤ (interRect r1 r2).y0 := le_max_left _ _
  · intro h
    rcases mul_eq_zero.mp h with h0 | h0
    · rw [sub_eq_zero] at h0
      exact ⟨guard1 r1 r2 h0, guard1' r2 r1 h0⟩
    · rw [sub_eq_zero] at h0
      exact ⟨guard2 r1 r2 h0, guard2' r2 r1 h0⟩

/-- C1 witness: the matcher declines two disjoint rectangles, declines a
degenerate rectangle, and accepts an overlapping pair with IoU 1/7 ≥ 0.05. -/
theorem overlap_matcher_spec_witness :
    rects_overlap ⟨0,0,2,2⟩ ⟨5,0,6,2⟩ (5/100) = false ∧
    rects_overlap ⟨0,0,2,0⟩ ⟨0,0,2,2⟩ (5/100) = false ∧
    rects_overlap ⟨0,0,2,2⟩ ⟨1,1,3,3⟩ (5/100) = true :=
  ⟨(overlap_matcher_spec ⟨0,0,2,2⟩ ⟨5,0,6,2⟩ (5/100)).2.1 (Or.inl (by norm_num)),
   ((overlap_matcher_spec ⟨0,0,2,0⟩ ⟨0,0,2,2⟩ (5/100)).2.2 (by norm_num [Rect.area])).1,
   (overlap_matcher_spec ⟨0,0,2,2⟩ ⟨1,1,3,3⟩ (5/100)).1.mpr
     (by norm_num [interRect, Rect.width, Rect.height, Rect.area])⟩

/-- C2 counterexample: 0.05 is a threshold ≤ 1.0, yet the degenerate
rectangle (0,0,0,0) matched against itself returns false — self-overlap is
not always a match. -/
theorem overlap_self_counterexample :
    (5:ℚ)/100 ≤ 1 ∧ rects_overlap ⟨0,0,0,0⟩ ⟨0,0,0,0⟩ (5/100) = false := by
  constructor
  · norm_num
  · norm_num [rects_overlap, interRect]

/-- C2 amended: for a rectangle with positive width and height whose area
is at least the ε = 1e-6 floor, self-overlap computes IoU 1 and matches
every threshold t ≤ 1. -/
theorem overlap_self_of_area_ge_eps (r : Rect) (t : ℚ) (hw : r.x0 < r.x1) (hh : r.y0 < r.y1)
    (ha : 1/1000000 ≤ r.area) (ht : t ≤ 1) :
    rects_overlap r r t = true := by
  have hA : (1:ℚ)/1000000 ≤ (r.x1 - r.x0) * (r.y1 - r.y0) := ha
  have hApos : 0 < (r.x1 - r.x0) * (r.y1 - r.y0) := lt_of_lt_of_le (by norm_num) hA
  simp only [rects_overlap, interRect, max_self, min_self]
  rw [if_neg (by push_neg; exact ⟨hw, hh⟩)]
  have h2 : (r.x1 - r.x0) * (r.y1 - r.y0) + (r.x1 - r.x0) * (r.y1 - r.y0) -
      (r.x1 - r.x0) * (r.y1 - r.y0) = (r.x1 - r.x0) * (r.y1 - r.y0) := by ring
  rw [h2, max_eq_left hA, div_self (ne_of_gt hApos)]
  exact decide_eq_true ht

/-- C2 amended witness: the unit square self-matches at threshold 1. -/
theorem overlap_self_of_area_ge_eps_witness : rects_overlap ⟨0,0,1,1⟩ ⟨0,0,1,1⟩ 1 = true :=
  overlap_self_of_area_ge_eps ⟨0,0,1,1⟩ 1 (by norm_num) (by norm_num)
    (by norm_num [Rect.area]) le_rfl

/-- C7: the color classifier rejects an absent color, accepts (r, g, b)
iff g ≥ 0.6 and g ≥ r + 0.10 and g ≥ b + 0.10, accepts (0.1, 0.8, 0.1) and
rejects (0.5, 0.65, 0.6). -/
theorem is_green_spec :
    is_green none = false ∧
    (∀ r g b : ℚ, (is_green (some (r, g, b)) = true ↔ (g ≥ 6/10 ∧ g ≥ r + 1/10 ∧ g ≥ b + 1/10))) ∧
    is_green (some (1/10, 8/10, 1/10)) = true ∧
    is_green (some (5/10, 65/100, 6/10)) = false := by
  refine ⟨rfl, ?_, ?_, ?_⟩
  · intro r g b
    simp [is_green, and_assoc]
  · norm_num [is_green]
  · norm_num [is_green]

/-- C7 witness: the classifier accepts (0.2, 0.9, 0.2) via the
characterization. -/
theorem is_green_spec_witness : is_green (some (2/10, 9/10, 2/10)) = true :=
  (is_green_spec.2.1 (2/10) (9/10) (2/10)).mpr (by norm_num)

/-- C10: the overlap matcher is symmetric in its two rectangles for every
threshold. -/
theorem rects_overlap_comm (r1 r2 : Rect) (t : ℚ) :
    rects_overlap r1 r2 t = rects_overlap r2 r1 t := by
  simp only [rects_overlap, interRect]
  simp only [max_comm r1.x0 r2.x0, max_comm r1.y0 r2.y0, min_comm r1.x1 r2.x1,
    min_comm r1.y1 r2.y1,
    add_comm ((r1.x1 - r1.x0) * (r1.y1 - r1.y0)) ((r2.x1 - r2.x0) * (r2.y1 - r2.y0))]

/-- Folding `min` over a list only lowers the initial value. -/
theorem foldl_min_le_init (l : List ℚ) : ∀ a : ℚ, l.foldl min a ≤ a := by
  induction l with
  | nil => intro a; exact le_refl a
  | cons x xs ih => intro a; exact le_trans (ih (min a x)) (min_le_left a x)

/-- Folding `max` over a list only raises the initial value. -/
theorem le_foldl_max_init (l : List ℚ) : ∀ a : ℚ, a ≤ l.foldl max a := by
  induction l with
  | nil => intro a; exact le_refl a
  | cons x xs ih => intro a; exact le_trans (le_max_left a x) (ih (max a x))

/-- The minimum of a list never exceeds its maximum. -/
theorem min_le_max_of_list (l : List ℚ) (mx Mx : ℚ)
    (h1 : l.min? = some mx) (h2 : l.max? = some Mx) : mx ≤ Mx := by
  cases l with
  | nil => simp [List.min?] at h1
  | cons x xs =>
    simp only [List.min?, List.max?, Option.some.injEq] at h1 h2
    rw [← h1, ← h2]
    exact le_trans (foldl_min_le_init xs x) (le_foldl_max_init xs x)

/-- The four-way minimum never exceeds the four-way maximum. -/
theorem min4_le_max4 (a b c d : ℚ) :
    min (min (min a b) c) d ≤ max (max (max a b) c) d :=
  calc min (min (min a b) c) d ≤ min (min a b) c := min_le_left _ _
    _ ≤ min a b := min_le_left _ _
    _ ≤ a := min_le_left _ _
    _ ≤ max a b := le_max_left _ _
    _ ≤ max (max a b) c := le_max_left _ _
    _ ≤ max (max (max a b) c) d := le_max_left _ _

/-- C9: every rectangle derived from a vertex encoding is
`(min xs, min ys, max xs, max ys)` over the quad's four points, hence
satisfies `x0 ≤ x1` and `y0 ≤ y1` regardless of coordinate order, and the
flat quad `[0,0, 10,0, 10,5, 0,5]` yields the rectangle `(0,0,10,5)`. -/
theorem quad_normalizer_spec :
    (∀ a b c d e f g h : ℚ,
      rect_from_quad_list [a, b, c, d, e, f, g, h] =
        some ⟨min (min (min a c) e) g, min (min (min b d) f) h,
              max (max (max a c) e) g, max (max (max b d) f) h⟩ ∧
      flatQuads [a, b, c, d, e, f, g, h] =
        [⟨min (min (min a c) e) g, min (min (min b d) f) h,
          max (max (max a c) e) g, max (max (max b d) f) h⟩]) ∧
    (∀ q : List ℚ, ∀ r : Rect, rect_from_quad_list q = some r → r.x0 ≤ r.x1 ∧ r.y0 ≤ r.y1) ∧
    (∀ ns : List ℚ, ∀ r ∈ flatQuads ns, r.x0 ≤ r.x1 ∧ r.y0 ≤ r.y1) ∧
    (∀ ps : List (ℚ × ℚ), ∀ r ∈ pointQuads ps, r.x0 ≤ r.x1 ∧ r.y0 ≤ r.y1) ∧
    rect_from_quad_list [0, 0, 10, 0, 10, 5, 0, 5] = some ⟨0, 0, 10, 5⟩ := by
  refine ⟨fun a b c d e f g h => ⟨rfl, rfl⟩, ?_, ?_, ?_, by decide⟩
  · intro q r hq
    unfold rect_from_quad_list at hq
    split at hq
    · simp only [Option.some.injEq] at hq
      subst hq
      rename_i mx my Mx My h1 h2 h3 h4
      exact ⟨min_le_max_of_list _ _ _ h1 h3, min_le_max_of_list _ _ _ h2 h4⟩
    · exact absurd hq (by simp)
  · intro ns
    induction ns using flatQuads.induct with
    | case1 x1 y1 x2 y2 x3 y3 x4 y4 rest ih =>
      intro r hr
      rw [flatQuads] at hr
      rcases List.mem_cons.mp hr with rfl | hr
      · exact ⟨min4_le_max4 x1 x2 x3 x4, min4_le_max4 y1 y2 y3 y4⟩
      · exact ih r hr
    | case2 ns h =>
      intro r hr
      rw [flatQuads.eq_def] at hr
      split at hr
      · exact (h _ _ _ _ _ _ _ _ _ rfl).elim
      · simp at hr
  · intro ps
    induction ps using pointQuads.induct with
    | case1 p1 p2 p3 p4 rest ih =>
      intro r hr
      rw [pointQuads] at hr
      rcases List.mem_cons.mp hr with rfl | hr
      · exact ⟨min4_le_max4 _ _ _ _, min4_le_max4 _ _ _ _⟩
      · exact ih r hr
    | case2 ps h =>
      intro r hr
      rw [pointQuads.eq_def] at hr
      split at hr
      · exact (h _ _ _ _ _ rfl).elim
      · simp at hr

/-- C9 witness: the validity invariant evaluated on a parsed quad and on a
member of a flat-list normalization. -/
theorem quad_normalizer_spec_witness :
    ((⟨0, 0, 10, 5⟩ : Rect).x0 ≤ (⟨0, 0, 10, 5⟩ : Rect).x1 ∧
      (⟨0, 0, 10, 5⟩ : Rect).y0 ≤ (⟨0, 0, 10, 5⟩ : Rect).y1) ∧
    ((⟨0, 0, 2, 1⟩ : Rect).x0 ≤ (⟨0, 0, 2, 1⟩ : Rect).x1 ∧
      (⟨0, 0, 2, 1⟩ : Rect).y0 ≤ (⟨0, 0, 2, 1⟩ : Rect).y1) :=
  ⟨quad_normalizer_spec.2.1 [0, 0, 10, 0, 10, 5, 0, 5] ⟨0, 0, 10, 5⟩ (by decide),
   quad_normalizer_spec.2.2.1 [0, 0, 2, 0, 2, 1, 0, 1] ⟨0, 0, 2, 1⟩ (by decide)⟩

/-- A flat list shorter than one full quad normalizes to no rectangle. -/
theorem flatQuads_eq_nil_of_short (ns : List ℚ) (h : ns.length < 8) : flatQuads ns = [] := by
  rw [flatQuads.eq_def]
  split
  · rename_i x1 y1 x2 y2 x3 y3 x4 y4 rest
    simp at h
    omega
  · rfl

/-- A point list shorter than one full quad normalizes to no rectangle. -/
theorem pointQuads_eq_nil_of_short (ps : List (ℚ × ℚ)) (h : ps.length < 4) :
    pointQuads ps = [] := by
  rw [pointQuads.eq_def]
  split
  · rename_i p1 p2 p3 p4 rest
    simp at h
    omega
  · rfl

/-- C3 counterexample: a markup annotation whose flat geometry list has 12
entries — not a multiple of 8 — normalizes to one rectangle, not zero, and
the collector emits that rectangle instead of falling back to the
annotation's coarse bounding box (9,9,10,10). -/
theorem geometry_fallback_counterexample :
    (12 % 8 ≠ 0) ∧
    normalizeGeometry (.flat [0, 0, 2, 0, 2, 1, 0, 1, 50, 50, 60, 60]) = [⟨0, 0, 2, 1⟩] ∧
    collectAnnot ⟨"Highlight", none, .flat [0, 0, 2, 0, 2, 1, 0, 1, 50, 50, 60, 60], ⟨9, 9, 10, 10⟩⟩ =
      [⟨"highlight", ⟨0, 0, 2, 1⟩, none⟩] :=
  ⟨by decide, by decide, by decide⟩

/-- C3 amended: for a markup annotation whose geometry is absent, empty, or
too short for one full quad (a flat list of fewer than 8 numbers, a point
list of fewer than 4 points), normalization yields zero rectangles and the
collector emits exactly the annotation's coarse bounding box. -/
theorem geometry_fallback (a : Annot)
    (hm : isTextMarkupName (strToLower a.typeString) = true)
    (hv : a.vertices = .absent ∨ a.vertices = .quads [] ∨
          (∃ ps, a.vertices = .points ps ∧ ps.length < 4) ∨
          (∃ ns, a.vertices = .flat ns ∧ ns.length < 8)) :
    normalizeGeometry a.vertices = [] ∧
    collectAnnot a = [⟨strToLower a.typeString, a.rect, a.stroke⟩] := by
  have hnil : normalizeGeometry a.vertices = [] := by
    rcases hv with h | h | ⟨ps, h, hlen⟩ | ⟨ns, h, hlen⟩ <;> rw [h]
    · rfl
    · rfl
    · exact pointQuads_eq_nil_of_short ps hlen
    · exact flatQuads_eq_nil_of_short ns hlen
  refine ⟨hnil, ?_⟩
  simp [collectAnnot, hm, hnil]

/-- C3 amended witness: a squiggly annotation with a three-number flat list
falls back to its own bounding box. -/
theorem geometry_fallback_witness :
    collectAnnot ⟨"Squiggly", none, .flat [1, 2, 3], ⟨0, 0, 4, 4⟩⟩ =
      [⟨strToLower "Squiggly", ⟨0, 0, 4, 4⟩, none⟩] :=
  (geometry_fallback ⟨"Squiggly", none, .flat [1, 2, 3], ⟨0, 0, 4, 4⟩⟩ (by decide)
    (Or.inr (Or.inr (Or.inr ⟨[1, 2, 3], rfl, by decide⟩)))).2

/-- A `Finset.sort` result is pinned down by sortedness, freedom from
duplicates, and membership. -/
theorem finset_sort_eq (s : Finset Int) (l : List Int)
    (hs : List.Sorted (· ≤ ·) l) (hn : l.Nodup) (hm : ∀ x, x ∈ l ↔ x ∈ s) :
    s.sort (· ≤ ·) = l := by
  refine List.eq_of_perm_of_sorted ?_ (Finset.sort_sorted _ _) hs
  rw [List.perm_ext_iff_of_nodup (Finset.sort_nodup _ _) hn]
  intro x
  rw [Finset.mem_sort]
  exact (hm x).symm

/-- Every member of the accumulated selection set comes from the initial
set or from some token's pages. -/
theorem mem_foldl_sel (docLen : Nat) (parts : List String) (n : Int) :
    ∀ s : Finset Int,
      n ∈ parts.foldl (fun sel part => sel ∪ (tokenPages docLen part).toFinset) s →
      n ∈ s ∨ ∃ part ∈ parts, n ∈ tokenPages docLen part := by
  induction parts with
  | nil => intro s h; exact Or.inl h
  | cons p ps ih =>
    intro s h
    rcases ih _ h with h' | ⟨part, hp, hn⟩
    · rcases Finset.mem_union.mp h' with h'' | h''
      · exact Or.inl h''
      · exact Or.inr ⟨p, List.mem_cons_self p ps, List.mem_toFinset.mp h''⟩
    · exact Or.inr ⟨part, List.mem_cons_of_mem _ hp, hn⟩

/-- Pages contributed by a single token are within `1..docLen`. -/
theorem tokenPages_range (docLen : Nat) (part : String) (n : Int)
    (h : n ∈ tokenPages docLen part) : 1 ≤ n ∧ n ≤ (docLen : Int) := by
  simp only [tokenPages] at h
  split at h
  · split at h
    · rw [List.mem_filter] at h
      exact of_decide_eq_true h.2
    · simp at h
  · split at h
    · rename_i m hm
      split at h
      · rcases List.mem_singleton.mp h with rfl
        assumption
      · simp at h
    · simp at h

/-- A token contributing no pages leaves the selection set unchanged. -/
theorem selOfTokens_skip (docLen : Nat) (pre post : List String) (bad : String)
    (hb : tokenPages docLen bad = []) :
    selOfTokens docLen (pre ++ bad :: post) = selOfTokens docLen (pre ++ post) := by
  unfold selOfTokens
  rw [List.foldl_append, List.foldl_append, List.foldl_cons, hb]
  simp

/-- C5: the page-range parser maps "1-3,5" on a 6-page document to
[1,2,3,5] and "9" on a 3-page document to all pages; every selected page is
in range; a token contributing nothing (malformed or out of range) never
invalidates the other tokens; the all-pages fallback fires exactly when the
selection set is empty, including for the empty expression. -/
theorem page_range_spec :
    page_numbers 6 "1-3,5" = [1, 2, 3, 5] ∧
    page_numbers 3 "9" = [1, 2, 3] ∧
    (∀ docLen : Nat, ∀ param : String, selectedSet docLen param = ∅ →
      page_numbers docLen param = all_nums docLen) ∧
    (∀ docLen : Nat, ∀ param : String, ∀ n : Int,
      n ∈ selectedSet docLen param → 1 ≤ n ∧ n ≤ (docLen : Int)) ∧
    (∀ docLen : Nat, ∀ pre post : List String, ∀ bad : String, tokenPages docLen bad = [] →
      selOfTokens docLen (pre ++ bad :: post) = selOfTokens docLen (pre ++ post)) ∧
    (∀ docLen : Nat, selectedSet docLen "" = ∅) := by
  refine ⟨?_, ?_, ?_, ?_, selOfTokens_skip, fun _ => rfl⟩
  · have h : selectedSet 6 "1-3,5" = ({1, 2, 3, 5} : Finset Int) := by decide
    simp only [page_numbers, h]
    rw [if_neg (by decide)]
    refine finset_sort_eq _ _ (by decide) (by decide) ?_
    intro x
    simp
  · have h : selectedSet 3 "9" = (∅ : Finset Int) := by decide
    simp only [page_numbers, h, if_pos]
    decide
  · intro docLen param h
    simp only [page_numbers, h, if_pos]
  · intro docLen param n h
    unfold selectedSet at h
    split at h
    · simp at h
    · rcases mem_foldl_sel docLen _ n ∅ h with h' | ⟨part, _, hn⟩
      · simp at h'
      · exact tokenPages_range docLen part n hn

/-- C5 witness: the fallback fires for the out-of-range "0" on 4 pages, a
selected page is in range, and the malformed token "x" drops out. -/
theorem page_range_spec_witness :
    page_numbers 4 "0" = all_nums 4 ∧
    ((1 : Int) ≤ 2 ∧ (2 : Int) ≤ 6) ∧
    selOfTokens 6 (["1"] ++ "x" :: ["2"]) = selOfTokens 6 (["1"] ++ ["2"]) :=
  ⟨page_range_spec.2.2.1 4 "0" (by decide),
   page_range_spec.2.2.2.1 6 "2" 2 (by decide),
   page_range_spec.2.2.2.2.1 6 ["1"] ["2"] "x" (by decide)⟩

/-- C8 counterexample: the text " " is empty after trimming whitespace, yet
the span carrying it is kept — `_spans_compacts` tests `if not t` on the
raw text without trimming. -/
theorem span_skip_counterexample :
    pyStrip " " = "" ∧
    (extractSpans 1 [⟨0, [⟨[⟨" ", "f", 0, 12, ⟨0, 0, 1, 1⟩, none⟩]⟩]⟩]).map SpanOut.text =
      [" "] :=
  ⟨by decide, rfl⟩

/-- C8 amended: a span is skipped exactly when its raw text is the empty
string; the text is not trimmed first, so no span in the output has empty
text but whitespace-only spans survive. -/
theorem span_skip (pageNum : Int) (blocks : List RawBlock) :
    ∀ s ∈ extractSpans pageNum blocks, s.text ≠ "" := by
  intro s hs
  unfold extractSpans at hs
  simp only [List.mem_flatMap] at hs
  obtain ⟨bp, -, hs⟩ := hs
  split at hs
  · exact absurd hs (List.not_mem_nil _)
  · simp only [List.mem_flatMap] at hs
    obtain ⟨lp, -, sp, -, hs⟩ := hs
    split at hs
    · exact absurd hs (List.not_mem_nil _)
    · rename_i hne
      rcases List.mem_singleton.mp hs with rfl
      exact hne

/-- C8 amended witness: the kept span "hi" has nonempty text. -/
theorem span_skip_witness :
    (spanOut 1 0 0 0 ⟨"hi", "f", 0, 12, ⟨0, 0, 1, 1⟩, none⟩).text ≠ "" :=
  span_skip 1 [⟨0, [⟨[⟨"hi", "f", 0, 12, ⟨0, 0, 1, 1⟩, none⟩]⟩]⟩] _ (List.Mem.head _)

/-- The sample list built by the annotation loop is the first two matching
candidates, in enumeration order. -/
theorem annotMatchLoop_samples (r : Rect) :
    ∀ (cands : List AnnotOut) (types : Finset String) (samples : List Sample),
      samples.length < 2 →
      (annotMatchLoop r cands types samples).2 =
        samples ++ ((cands.filter fun a => rects_overlap r a.rect (5/100)).take
          (2 - samples.length)).map toSample := by
  intro cands
  induction cands with
  | nil => intro types samples h; simp [annotMatchLoop]
  | cons a rest ih =>
    intro types samples h
    rw [annotMatchLoop]
    by_cases hov : rects_overlap r a.rect (5/100) = true
    · rw [if_pos hov]
      by_cases hlen : 2 ≤ (samples ++ [toSample a]).length
      · rw [if_pos hlen]
        have h1 : samples.length = 1 := by
          simp only [List.length_append, List.length_singleton] at hlen
          omega
        simp [List.filter_cons, hov, h1]
      · rw [if_neg hlen]
        have hlt : (samples ++ [toSample a]).length < 2 := by omega
        rw [ih _ _ hlt]
        have h0 : samples.length = 0 := by
          simp only [List.length_append, List.length_singleton] at hlen
          omega
        simp [List.filter_cons, hov, h0, List.append_assoc]
    · rw [if_neg hov]
      rw [ih _ _ h]
      simp [List.filter_cons, hov]

/-- If the annotation loop ends with an empty kind set, it started with one
and recorded no sample. -/
theorem annotMatchLoop_fst_empty (r : Rect) :
    ∀ (cands : List AnnotOut) (types : Finset String) (samples : List Sample),
      (annotMatchLoop r cands types samples).1 = ∅ →
      types = ∅ ∧ (annotMatchLoop r cands types samples).2 = samples := by
  intro cands
  induction cands with
  | nil => intro types samples h; exact ⟨h, rfl⟩
  | cons a rest ih =>
    intro types samples h
    rw [annotMatchLoop] at h ⊢
    by_cases hov : rects_overlap r a.rect (5/100) = true
    · rw [if_pos hov] at h ⊢
      by_cases hlen : 2 ≤ (samples ++ [toSample a]).length
      · rw [if_pos hlen] at h
        exact absurd h (Finset.insert_ne_empty _ _)
      · rw [if_neg hlen] at h
        exact absurd (ih _ _ h).1 (Finset.insert_ne_empty _ _)
    · rw [if_neg hov] at h ⊢
      exact ih _ _ h

/-- The visual sample list is the first two matching fills, in enumeration
order. -/
theorem visualMatchLoop_samples (r : Rect) :
    ∀ (cands : List VisualOut) (vs : List VisualSample),
      vs.length < 2 →
      visualMatchLoop r cands vs =
        vs ++ ((cands.filter fun v => rects_overlap r v.rect (5/100)).take
          (2 - vs.length)).map fun v => ⟨v.rect, v.fill⟩ := by
  intro cands
  induction cands with
  | nil => intro vs h; simp [visualMatchLoop]
  | cons a rest ih =>
    intro vs h
    rw [visualMatchLoop]
    by_cases hov : rects_overlap r a.rect (5/100) = true
    · rw [if_pos hov]
      by_cases hlen : 2 ≤ (vs ++ [(⟨a.rect, a.fill⟩ : VisualSample)]).length
      · rw [if_pos hlen]
        have h1 : vs.length = 1 := by
          simp only [List.length_append, List.length_singleton] at hlen
          omega
        simp [List.filter_cons, hov, h1]
      · rw [if_neg hlen]
        have hlt : (vs ++ [(⟨a.rect, a.fill⟩ : VisualSample)]).length < 2 := by omega
        rw [ih _ hlt]
        have h0 : vs.length = 0 := by
          simp only [List.length_append, List.length_singleton] at hlen
          omega
        simp [List.filter_cons, hov, h0, List.append_assoc]
    · rw [if_neg hov]
      rw [ih _ h]
      simp [List.filter_cons, hov]

/-- C4: a span's annotation-mark kinds are a duplicate-free, sorted list;
both sample lists equal the first two matching candidates in enumeration
order (no secondary sort), hence hold at most 2 entries no matter how many
candidates overlap. -/
theorem span_marks_spec (r : Rect) (cands : List AnnotOut) (vcands : List VisualOut) :
    (annotMark r cands).types.Nodup ∧
    List.Sorted (· ≤ ·) (annotMark r cands).types ∧
    (annotMark r cands).samples =
      ((cands.filter fun a => rects_overlap r a.rect (5/100)).take 2).map toSample ∧
    (annotMark r cands).samples.length ≤ 2 ∧
    (visualMark r vcands).samples =
      ((vcands.filter fun v => rects_overlap r v.rect (5/100)).take 2).map
        (fun v => ⟨v.rect, v.fill⟩) ∧
    (visualMark r vcands).samples.length ≤ 2 := by
  have hchar := annotMatchLoop_samples r cands ∅ [] (by norm_num)
  simp only [List.nil_append, List.length_nil, Nat.sub_zero] at hchar
  have hsam : (annotMark r cands).samples =
      ((cands.filter fun a => rects_overlap r a.rect (5/100)).take 2).map toSample := by
    simp only [annotMark]
    by_cases h : (annotMatchLoop r cands ∅ []).1 = ∅
    · rw [if_pos h]
      rw [← hchar, (annotMatchLoop_fst_empty r cands ∅ [] h).2]
    · rw [if_neg h]
      exact hchar
  have hvis := visualMatchLoop_samples r vcands [] (by norm_num)
  simp only [List.nil_append, List.length_nil, Nat.sub_zero] at hvis
  refine ⟨Finset.sort_nodup _ _, Finset.sort_sorted _ _, hsam, ?_, hvis, ?_⟩
  · rw [hsam, List.length_map]
    exact le_trans (List.length_take_le _ _) le_rfl
  · rw [show (visualMark r vcands).samples = visualMatchLoop r vcands [] from rfl, hvis]
    rw [List.length_map]
    exact le_trans (List.length_take_le _ _) le_rfl

/-- Total serialized size of a list of pages. -/
def sizesSum (size : Int → Nat) (l : List Int) : Nat := (l.map size).sum

/-- The budget loop returns a prefix of the selected pages: pages already
produced are kept, later ones are dropped. -/
theorem budgetPages_prefix (size : Int → Nat) (budget : Nat) :
    ∀ (pages : List Int) (acc : Nat), budgetPages size budget pages acc <+: pages := by
  intro pages
  induction pages with
  | nil => intro acc; simp [budgetPages]
  | cons p rest ih =>
    intro acc
    rw [budgetPages]
    by_cases h : budget < acc + size p
    · rw [if_pos h]
      exact ⟨rest, rfl⟩
    · rw [if_neg h]
      exact List.cons_prefix_cons.mpr ⟨rfl, ih _⟩

/-- Every page before the last returned one was still within budget. -/
theorem budgetPages_dropLast_le (size : Int → Nat) (budget : Nat) :
    ∀ (pages : List Int) (acc : Nat), acc ≤ budget →
      acc + sizesSum size (budgetPages size budget pages acc).dropLast ≤ budget := by
  intro pages
  induction pages with
  | nil => intro acc hacc; simpa [budgetPages, sizesSum] using hacc
  | cons p rest ih =>
    intro acc hacc
    rw [budgetPages]
    by_cases h : budget < acc + size p
    · rw [if_pos h]
      simpa [sizesSum] using hacc
    · rw [if_neg h]
      push_neg at h
      cases hrec : budgetPages size budget rest (acc + size p) with
      | nil => simpa [sizesSum] using hacc
      | cons q qs =>
        rw [List.dropLast_cons₂]
        have hrec2 := ih (acc + size p) h
        rw [hrec] at hrec2
        simp only [sizesSum, List.map_cons, List.sum_cons] at hrec2 ⊢
        omega

/-- If the loop stopped before exhausting the pages, the returned pages
exceeded the budget. -/
theorem budgetPages_stop (size : Int → Nat) (budget : Nat) :
    ∀ (pages : List Int) (acc : Nat),
      (budgetPages size budget pages acc).length < pages.length →
      budget < acc + sizesSum size (budgetPages size budget pages acc) := by
  intro pages
  induction pages with
  | nil => intro acc h; simp [budgetPages] at h
  | cons p rest ih =>
    intro acc h
    rw [budgetPages] at h ⊢
    by_cases hb : budget < acc + size p
    · rw [if_pos hb] at h ⊢
      simp only [sizesSum, List.map_cons, List.map_nil, List.sum_cons, List.sum_nil]
      omega
    · rw [if_neg hb] at h ⊢
      simp only [List.length_cons, Nat.add_lt_add_iff_right] at h
      have := ih (acc + size p) h
      simp only [sizesSum, List.map_cons, List.sum_cons] at this ⊢
      omega

/-- A document with at least one page always selects at least one page. -/
theorem page_numbers_ne_nil (docLen : Nat) (param : String) (h : 1 ≤ docLen) :
    page_numbers docLen param ≠ [] := by
  simp only [page_numbers]
  split
  · simp only [all_nums, ne_eq, List.map_eq_nil_iff, List.range_eq_nil]
    omega
  · rename_i hne
    obtain ⟨x, hx⟩ := Finset.nonempty_iff_ne_empty.mpr hne
    intro hc
    have hm := (Finset.mem_sort (α := Int) (· ≤ ·)).mpr hx
    rw [hc] at hm
    exact List.not_mem_nil _ hm

/-- The selected pages are listed in strictly ascending order. -/
theorem page_numbers_sorted (docLen : Nat) (param : String) :
    List.Sorted (· < ·) (page_numbers docLen param) := by
  simp only [page_numbers]
  split
  · unfold all_nums
    exact List.Pairwise.map _ (fun a b hab => by omega) (List.pairwise_lt_range docLen)
  · exact Finset.sort_sorted_lt _

/-- C6: pages are processed in ascending order and the returned pages are a
prefix of the selection; cumulative serialized size stays within budget for
all but possibly the last returned page; if the loop stopped early the
returned pages exceed the budget; the meta reports the true page count and
the returned count; and when every selected page is larger than the budget,
exactly one page is returned, and `returned_pages < page_count` whenever the
document has at least two pages. -/
theorem budget_loop_spec (docLen : Nat) (param : String) (size : Int → Nat) (budget : Nat) :
    List.Sorted (· < ·) (page_numbers docLen param) ∧
    ((parseMeta docLen param size budget).2 <+: page_numbers docLen param) ∧
    (parseMeta docLen param size budget).1.page_count = docLen ∧
    (parseMeta docLen param size budget).1.returned_pages =
      (parseMeta docLen param size budget).2.length ∧
    sizesSum size (parseMeta docLen param size budget).2.dropLast ≤ budget ∧
    ((parseMeta docLen param size budget).2.length < (page_numbers docLen param).length →
      budget < sizesSum size (parseMeta docLen param size budget).2) ∧
    ((∀ p ∈ page_numbers docLen param, budget < size p) → 1 ≤ docLen →
      (parseMeta docLen param size budget).1.returned_pages = 1 ∧
      (2 ≤ docLen → (parseMeta docLen param size budget).1.returned_pages <
        (parseMeta docLen param size budget).1.page_count)) := by
  refine ⟨page_numbers_sorted docLen param, budgetPages_prefix size budget _ 0, rfl, rfl, ?_, ?_, ?_⟩
  · have := budgetPages_dropLast_le size budget (page_numbers docLen param) 0 (Nat.zero_le _)
    simpa using this
  · intro h
    have := budgetPages_stop size budget (page_numbers docLen param) 0 h
    simpa using this
  · intro hall hdoc
    have hne := page_numbers_ne_nil docLen param hdoc
    obtain ⟨p, rest, hpr⟩ := List.exists_cons_of_ne_nil hne
    have hret : (parseMeta docLen param size budget).1.returned_pages = 1 := by
      show (budgetPages size budget (page_numbers docLen param) 0).length = 1
      rw [hpr, budgetPages, if_pos]
      · rfl
      · have := hall p (by rw [hpr]; exact List.mem_cons_self _ _)
        omega
    refine ⟨hret, fun h2 => ?_⟩
    rw [hret]
    show 1 < docLen
    omega

/-- C6 witness: with a 3-page document, every page serializing to 5 bytes,
and a budget of 2 bytes, exactly one page is returned and
`returned_pages < page_count`. -/
theorem budget_loop_spec_witness :
    (parseMeta 3 "" (fun x => 5) 2).1.returned_pages = 1 ∧
    (parseMeta 3 "" (fun x => 5) 2).1.returned_pages <
      (parseMeta 3 "" (fun x => 5) 2).1.page_count := by
  have h := (budget_loop_spec 3 "" (fun x => 5) 2).2.2.2.2.2.2
    (fun p hp => by norm_num) (by norm_num)
  exact ⟨h.1, h.2 (by norm_num)⟩

end PdfAnnotations
